import Mathlib

/-!
Verification of the dependency-graph construction algorithm of go-raph
(`analyzeProject`, `addNode`, `addEdge` in `main.go`).

The Go code is shallowly embedded: the manifest (`go.mod`) contents, the
list of files visited by the tree walk (with their parse results) and the
walk error are the input; all string operations mirror the corresponding
`strings`/`path/filepath` functions on Unicode code points.  Go iterates
maps in unspecified order; the one iteration whose order can change the
resulting edge set (the scan of `directModules` while searching a parent
for an indirect module) is made explicit as the `directIter` parameter,
constrained in theorems to enumerate exactly the declared module paths.
The other map iterations are provably order-insensitive (the longest
prefix of a fixed string is unique per length) or only permute output
order, so they are fixed to insertion order.
-/

namespace GoRaph

/-- Occurrence of a pattern inside a character list; `strings.Contains`. -/
def charListHas (pat : List Char) : List Char → Bool
  | [] => pat.isEmpty
  | c :: cs => pat.isPrefixOf (c :: cs) || charListHas pat cs

/-- `strings.Contains s sub`. -/
def strHas (s sub : String) : Bool := charListHas sub.toList s.toList

/-- `strings.HasPrefix s pre`. -/
def strStarts (s pre : String) : Bool := pre.toList.isPrefixOf s.toList

/-- `strings.HasSuffix s suf`. -/
def strEnds (s suf : String) : Bool := suf.toList.isSuffixOf s.toList

/-- Split a character list at every occurrence of a separator character. -/
def splitOnChar (sep : Char) : List Char → List (List Char)
  | [] => [[]]
  | c :: cs =>
    match splitOnChar sep cs with
    | [] => [[c]]
    | y :: ys => if c == sep then [] :: y :: ys else (c :: y) :: ys

/-- `strings.Split s "/"`. -/
def splitSlash (s : String) : List String := (splitOnChar '/' s.toList).map String.mk

/-- Drop the first `n` characters of a string. -/
def strDrop (s : String) (n : Nat) : String := String.mk (s.toList.drop n)

/-- `strings.TrimPrefix s pre`. -/
def trimPref (s pre : String) : String := if strStarts s pre then strDrop s pre.length else s

/-- `filepath.Base`: last path element after stripping trailing separators. -/
def baseOf (s : String) : String :=
  if s = "" then "." else
  let t := (s.toList.reverse.dropWhile (fun c => c == '/')).reverse
  if t = [] then "/" else String.mk ((t.reverse.takeWhile (fun c => !(c == '/'))).reverse)

/-- Simplified `filepath.Dir`: everything before the last separator, without
the full lexical `Clean` normalization (walk-produced paths are already clean). -/
def dirOf (s : String) : String :=
  let r := s.toList.reverse.dropWhile (fun c => !(c == '/'))
  let r2 := r.dropWhile (fun c => c == '/')
  if r2 = [] then (if r = [] then "." else "/") else String.mk r2.reverse

/-- First path segment, `strings.Split(s, "/")[0]`. -/
def firstSeg (s : String) : String := (splitSlash s).headD ""

/-- Graph vertex; the render-only position/velocity fields (always emitted
as zero placeholders by the Go code) are omitted. -/
structure Node where
  id : String
  label : String
  type : String
  depth : Nat
deriving Repr, DecidableEq

/-- Directed edge. -/
structure Edge where
  source : String
  target : String
deriving Repr, DecidableEq

/-- The produced graph. -/
structure Graph where
  nodes : List Node
  edges : List Edge
deriving Repr, DecidableEq

/-- One `require` entry of the manifest. -/
structure ModRequire where
  path : String
  indirect : Bool
deriving Repr, DecidableEq

/-- A successfully parsed `go.mod`. -/
structure ModFileData where
  modulePath : String
  require : List ModRequire
deriving Repr, DecidableEq

/-- One path visited by the tree walk; `parsed = none` when
`parser.ParseFile` fails on it, otherwise the quoted import paths. -/
structure SrcFile where
  path : String
  parsed : Option (List String)
deriving Repr, DecidableEq

/-- Whole input of one analysis run.  `modfile = none` covers both a missing
and an unparsable `go.mod`; `walkError` is the error `filepath.Walk`
returns when the tree (in particular the project root) is unreachable. -/
structure ProjectInput where
  projectPath : String
  modfile : Option ModFileData
  files : List SrcFile
  walkError : Option String
deriving Repr, DecidableEq

/-- Mutable state threaded through the scan: the graph, the key set of
`nodeMap`, the write-only `moduleToImporter` record and `usedModules`. -/
structure AnalyzeState where
  graph : Graph
  nodeMap : List String
  moduleToImporter : List (String × String)
  usedModules : List String
deriving Repr, DecidableEq

/-- Insert a key into a map key set (no-op when present). -/
def insertNew (l : List String) (x : String) : List String :=
  if l.contains x then l else l ++ [x]

/-- `addNode` from `main.go`: first write wins. -/
def addNode (g : Graph) (nodeMap : List String) (id label ty : String) (depth : Nat) :
    Graph × List String :=
  if nodeMap.contains id then (g, nodeMap)
  else ({ g with nodes := g.nodes ++ [{ id := id, label := label, type := ty, depth := depth }] },
        nodeMap ++ [id])

/-- `addEdge` from `main.go`: duplicate `(source, target)` pairs are dropped. -/
def addEdge (g : Graph) (source target : String) : Graph :=
  if g.edges.any (fun e => e.source == source && e.target == target) then g
  else { g with edges := g.edges ++ [{ source := source, target := target }] }

/-- The longest-prefix search over `availableModules` (lines 182-189 of
`main.go`).  Iteration order is immaterial: two distinct prefixes of the
same string never have equal length, so the maximum is unique. -/
def findRootModule (importPath : String) (availableModules : List String) : String × Nat :=
  availableModules.foldl
    (fun acc modulePath =>
      if strStarts importPath modulePath ∧ acc.2 < modulePath.length then
        (modulePath, modulePath.length)
      else acc)
    ("", 0)

/-- Label of an external sub-import node (lines 208-216 of `main.go`). -/
def importLabelOf (importPath : String) : String :=
  if 40 < importPath.length then
    let parts := splitSlash importPath
    if 2 < parts.length then parts.headD "" ++ "/.../" ++ parts.getLastD ""
    else importPath
  else importPath

/-- Processing of one import declaration (lines 167-225 of `main.go`). -/
def processImport (mainModule : String) (availableModules : List String) (packageID : String)
    (st : AnalyzeState) (importPath : String) : AnalyzeState :=
  if strHas importPath "." = false then st
  else if strStarts importPath mainModule then
    let importID := "import:" ++ importPath
    let p := addNode st.graph st.nodeMap importID (baseOf importPath) "internal" 0
    { st with graph := addEdge p.1 packageID importID, nodeMap := p.2 }
  else
    let rootModule := (findRootModule importPath availableModules).1
    if rootModule = "" then st
    else
      let used := insertNew st.usedModules rootModule
      let mti := st.moduleToImporter ++ [(rootModule, packageID)]
      let p := addNode st.graph st.nodeMap rootModule rootModule "external" 2
      if importPath = rootModule then
        { graph := addEdge p.1 packageID rootModule, nodeMap := p.2,
          moduleToImporter := mti, usedModules := used }
      else
        let importID := "import:" ++ importPath
        let q := addNode p.1 p.2 importID (importLabelOf importPath) "external" 1
        let g := addEdge (addEdge q.1 packageID importID) importID rootModule
        { graph := g, nodeMap := q.2, moduleToImporter := mti, usedModules := used }

/-- Package location relative to the project root (lines 153-156). -/
def relPathOf (projectPath path : String) : String :=
  let rel := trimPref (dirOf path) (projectPath ++ "/")
  if rel = "." ∨ rel = "" then "root" else rel

/-- Package node id (line 158). -/
def packageIdOf (projectPath path : String) : String := "pkg:" ++ relPathOf projectPath path

/-- Package node label (lines 160-163). -/
def displayNameOf (projectPath path : String) : String :=
  let d := baseOf (relPathOf projectPath path)
  if d = "root" then "main" else d

/-- The walk callback for one visited path (lines 140-228 of `main.go`):
skip non-source and vendored paths, skip files that fail to parse,
register the package node, then fold over the file's imports. -/
def processFile (projectPath mainModule : String) (availableModules : List String)
    (st : AnalyzeState) (f : SrcFile) : AnalyzeState :=
  if strEnds f.path ".go" = false ∨ strHas f.path "vendor/" then st
  else
    match f.parsed with
    | none => st
    | some imports =>
      let packageID := packageIdOf projectPath f.path
      let p := addNode st.graph st.nodeMap packageID (displayNameOf projectPath f.path) "package" 0
      imports.foldl (processImport mainModule availableModules packageID)
        { st with graph := p.1, nodeMap := p.2 }

/-- The project's own module path; empty when the manifest is missing. -/
def mainModuleOf : Option ModFileData → String
  | none => ""
  | some mf => mf.modulePath

/-- Key set of the `availableModules` map, in insertion order. -/
def availableModulesOf : Option ModFileData → List String
  | none => []
  | some mf => mf.require.foldl (fun acc r => insertNew acc r.path) []

/-- Lookup in the `directModules` map (`!req.Indirect`, later entries
overwrite, missing key reads as `false`). -/
def directLookup (mf : Option ModFileData) (m : String) : Bool :=
  match mf with
  | none => false
  | some mfd =>
    (mfd.require.foldl (fun acc r => if r.path = m then some (!r.indirect) else acc) none).getD false

/-- State after the manifest phase (lines 112-137): a `main` node when the
manifest parses, nothing otherwise. -/
def initState : Option ModFileData → AnalyzeState
  | none => { graph := { nodes := [], edges := [] }, nodeMap := [],
              moduleToImporter := [], usedModules := [] }
  | some mf =>
    let p := addNode { nodes := [], edges := [] } [] mf.modulePath mf.modulePath "main" 0
    { graph := p.1, nodeMap := p.2, moduleToImporter := [], usedModules := [] }

/-- State after the whole source scan. -/
def scanState (input : ProjectInput) : AnalyzeState :=
  input.files.foldl
    (processFile input.projectPath (mainModuleOf input.modfile) (availableModulesOf input.modfile))
    (initState input.modfile)

/-- The parent-plausibility test of the repair pass (lines 239-242). -/
def parentMatch (mf : Option ModFileData) (usedList : List String)
    (modulePath directModule : String) : Bool :=
  directLookup mf directModule && usedList.contains directModule &&
    (strStarts modulePath (firstSeg directModule) || strHas modulePath (firstSeg directModule))

/-- Remove the first node carrying a given id (lines 252-258). -/
def removeFirstNode (id : String) : List Node → List Node
  | [] => []
  | n :: ns => if n.id == id then ns else n :: removeFirstNode id ns

/-- Node removal of the repair pass: drop the node from the node list and
its id from the node index; edges are left untouched. -/
def removeNodeById (g : Graph) (nodeMap : List String) (id : String) : Graph × List String :=
  if g.nodes.any (fun n => n.id == id) then
    ({ g with nodes := removeFirstNode id g.nodes }, nodeMap.erase id)
  else (g, nodeMap)

/-- Repair step for one used module (lines 231-262): direct modules are
wired to the main module, indirect ones to the first plausible direct
parent in `directIter` order, orphans are removed. -/
def repairModule (mf : Option ModFileData) (mainModule : String)
    (directIter usedList : List String) (acc : Graph × List String) (modulePath : String) :
    Graph × List String :=
  if directLookup mf modulePath then (addEdge acc.1 mainModule modulePath, acc.2)
  else
    match directIter.find? (fun d => parentMatch mf usedList modulePath d) with
    | some directModule => (addEdge acc.1 directModule modulePath, acc.2)
    | none => removeNodeById acc.1 acc.2 modulePath

/-- `analyzeProject` from `main.go`: manifest phase, scan, repair pass;
the walk error, when any, is returned alongside the graph. -/
def analyzeProject (input : ProjectInput) (directIter : List String) : Graph × Option String :=
  let st := scanState input
  let r := st.usedModules.foldl
      (repairModule input.modfile (mainModuleOf input.modfile) directIter st.usedModules)
      (st.graph, st.nodeMap)
  (r.1, input.walkError)

/-- The `(source, target)` pairs of a graph. -/
def edgeKeys (g : Graph) : List (String × String) := g.edges.map (fun e => (e.source, e.target))

/-- Well-formedness of the pair (graph, node index): the index keys are
exactly the node ids in order, node ids are distinct and edge pairs are
distinct. -/
def GInv (g : Graph) (nm : List String) : Prop :=
  nm = g.nodes.map Node.id ∧ (g.nodes.map Node.id).Nodup ∧ (edgeKeys g).Nodup

/-- Invariant carried through the source scan: the graph/index pair is
well-formed, the used-module list is duplicate-free, and every used module
already has an incoming edge (added by the very import that marked it). -/
def ScanInv (st : AnalyzeState) : Prop :=
  GInv st.graph st.nodeMap ∧ st.usedModules.Nodup ∧
    ∀ m ∈ st.usedModules, ∃ e ∈ st.graph.edges, e.target = m

/-- Invariant of a run without a parsable manifest: the index mirrors the
node list, no module is ever marked used, and every node is either a
package node or an internal import node. -/
def NoModInv (st : AnalyzeState) : Prop :=
  st.nodeMap = st.graph.nodes.map Node.id ∧
  st.usedModules = [] ∧
  (∀ n ∈ st.graph.nodes,
    (strStarts n.id "pkg:" = true ∧ n.type = "package") ∨
    (strStarts n.id "import:" = true ∧ n.type = "internal")) ∧
  (∀ e ∈ st.graph.edges, strStarts e.source "pkg:" = true)

/-- The empty analysis state, used as a base point for concrete runs. -/
def emptyState : AnalyzeState :=
  { graph := { nodes := [], edges := [] }, nodeMap := [],
    moduleToImporter := [], usedModules := [] }

/-- Concrete project: one indirect declared module that is imported but has
no direct declared module at all, so the repair pass orphans it. -/
def orphanInput : ProjectInput :=
  { projectPath := ".",
    modfile := some { modulePath := "example.com/app",
                      require := [{ path := "z.io/orphan", indirect := true }] },
    files := [{ path := "main.go", parsed := some ["z.io/orphan"] }],
    walkError := none }

/-- The graph produced on `orphanInput` (enumeration order is the single
declared module). -/
def orphanGraph : Graph := (analyzeProject orphanInput ["z.io/orphan"]).1

/-- Concrete project with two direct used modules that both match the
first path segment of one indirect used module. -/
def permInput : ProjectInput :=
  { projectPath := ".",
    modfile := some { modulePath := "m.io/app",
                      require := [{ path := "x.io/p", indirect := false },
                                  { path := "x.io/q", indirect := false },
                                  { path := "x.io/r", indirect := true }] },
    files := [{ path := "main.go", parsed := some ["x.io/p", "x.io/q", "x.io/r"] }],
    walkError := none }

/-- One enumeration order of the direct-module map of `permInput`. -/
def permOrder1 : List String := ["x.io/p", "x.io/q", "x.io/r"]

/-- Another enumeration order of the same map. -/
def permOrder2 : List String := ["x.io/q", "x.io/p", "x.io/r"]

/-- Concrete project without a manifest whose single file imports a path
with a dot only after the first separator, plus a standard-library path. -/
def noModInput : ProjectInput :=
  { projectPath := ".",
    modfile := none,
    files := [{ path := "main.go", parsed := some ["foo/bar.v1", "fmt"] }],
    walkError := none }

/-- A 42-character external import path with only two path segments. -/
def longPath2 : String := "aaaaaaaaaaaaaaaaaaaaaaaaaaaaaaaaaaaa.io/bb"

/-- A 42-character external import path with three path segments. -/
def longPath3 : String := "aaaaaaaaaaaaaaaaaaaaaaaaaaaaaaaaaa.io/b/cc"

/-- Concrete project whose single import is owned by no declared module. -/
def unresolvedInput : ProjectInput :=
  { projectPath := ".",
    modfile := some { modulePath := "m.io/app",
                      require := [{ path := "github.com/gorilla/websocket",
                                    indirect := false }] },
    files := [{ path := "main.go", parsed := some ["unknown.org/lib/sub"] }],
    walkError := none }

theorem foldl_inv {α β : Type} {P : α → Prop} {f : α → β → α} {l : List β} {a : α}
    (h0 : P a) (hstep : ∀ st x, P st → P (f st x)) : P (l.foldl f a) := by
  induction l generalizing a with
  | nil => exact h0
  | cons x xs ih => exact ih (hstep a x h0)

theorem mem_insertNew_self (l : List String) (x : String) : x ∈ insertNew l x := by
  unfold insertNew
  split
  · exact List.elem_iff.mp (by assumption)
  · simp

theorem mem_insertNew_of_mem {l : List String} {a : String} (x : String) (h : a ∈ l) :
    a ∈ insertNew l x := by
  unfold insertNew
  split
  · exact h
  · exact List.mem_append_left _ h

theorem mem_insertNew {l : List String} {x a : String} :
    a ∈ insertNew l x ↔ a ∈ l ∨ a = x := by
  unfold insertNew
  split
  · rename_i hc
    constructor
    · exact fun h => Or.inl h
    · rintro (h | rfl)
      · exact h
      · exact List.elem_iff.mp hc
  · simp

theorem insertNew_nodup {l : List String} (x : String) (h : l.Nodup) :
    (insertNew l x).Nodup := by
  unfold insertNew
  split
  · exact h
  · rename_i hc
    refine List.nodup_append.mpr ⟨h, List.nodup_singleton x, ?_⟩
    intro a ha hax
    rw [List.mem_singleton] at hax
    subst hax
    exact hc (List.elem_iff.mpr ha)

theorem addNode_snd (g : Graph) (nm : List String) (i l t : String) (d : Nat) :
    (addNode g nm i l t d).2 = insertNew nm i := by
  unfold addNode insertNew
  split <;> rfl

theorem addNode_edges (g : Graph) (nm : List String) (i l t : String) (d : Nat) :
    (addNode g nm i l t d).1.edges = g.edges := by
  unfold addNode
  split <;> rfl

theorem addNode_nodes (g : Graph) (nm : List String) (i l t : String) (d : Nat) :
    (addNode g nm i l t d).1.nodes =
      if nm.contains i then g.nodes
      else g.nodes ++ [{ id := i, label := l, type := t, depth := d }] := by
  unfold addNode
  split <;> simp_all

theorem mem_addNode_nodes {g : Graph} {nm : List String} {n : Node} (i l t : String) (d : Nat)
    (h : n ∈ g.nodes) : n ∈ (addNode g nm i l t d).1.nodes := by
  rw [addNode_nodes]
  split
  · exact h
  · exact List.mem_append_left _ h

theorem mem_addNode_snd (g : Graph) (nm : List String) (i l t : String) (d : Nat) :
    i ∈ (addNode g nm i l t d).2 := by
  rw [addNode_snd]
  exact mem_insertNew_self nm i

theorem GInv_addNode {g : Graph} {nm : List String} (i l t : String) (d : Nat)
    (h : GInv g nm) : GInv (addNode g nm i l t d).1 (addNode g nm i l t d).2 := by
  obtain ⟨hsync, hn, he⟩ := h
  unfold addNode
  split
  · exact ⟨hsync, hn, he⟩
  · rename_i hc
    refine ⟨by simp [hsync], ?_, he⟩
    simp only [List.map_append, List.map_cons, List.map_nil]
    refine List.nodup_append.mpr ⟨hn, List.nodup_singleton i, ?_⟩
    intro a ha hax
    rw [List.mem_singleton] at hax
    subst hax
    exact hc (List.elem_iff.mpr (hsync ▸ ha))

theorem addEdge_nodes (g : Graph) (a b : String) : (addEdge g a b).nodes = g.nodes := by
  unfold addEdge
  split <;> rfl

theorem mem_addEdge {g : Graph} {e : Edge} (a b : String) (h : e ∈ g.edges) :
    e ∈ (addEdge g a b).edges := by
  unfold addEdge
  split
  · exact h
  · exact List.mem_append_left _ h

theorem self_mem_addEdge (g : Graph) (a b : String) :
    (⟨a, b⟩ : Edge) ∈ (addEdge g a b).edges := by
  unfold addEdge
  split
  · rename_i hc
    obtain ⟨e, he, hb⟩ := List.any_eq_true.mp hc
    rw [Bool.and_eq_true] at hb
    have h1 : e.source = a := eq_of_beq hb.1
    have h2 : e.target = b := eq_of_beq hb.2
    have : e = ⟨a, b⟩ := by cases e; simp_all
    exact this ▸ he
  · simp

theorem GInv_addEdge {g : Graph} {nm : List String} (a b : String) (h : GInv g nm) :
    GInv (addEdge g a b) nm := by
  obtain ⟨hsync, hn, he⟩ := h
  unfold addEdge
  split
  · exact ⟨hsync, hn, he⟩
  · rename_i hc
    refine ⟨hsync, hn, ?_⟩
    unfold edgeKeys
    simp only [List.map_append, List.map_cons, List.map_nil]
    refine List.nodup_append.mpr ⟨he, List.nodup_singleton _, ?_⟩
    intro x hx hxs
    rw [List.mem_singleton] at hxs
    subst hxs
    obtain ⟨e, hme, hpe⟩ := List.mem_map.mp hx
    apply hc
    refine List.any_eq_true.mpr ⟨e, hme, ?_⟩
    have h1 : e.source = a := congrArg Prod.fst hpe
    have h2 : e.target = b := congrArg Prod.snd hpe
    simp [h1, h2]

theorem removeFirstNode_map_id (i : String) (l : List Node) :
    (removeFirstNode i l).map Node.id = (l.map Node.id).erase i := by
  induction l with
  | nil => rfl
  | cons n ns ih =>
    unfold removeFirstNode
    by_cases h : n.id = i
    · simp [h, List.erase_cons_head]
    · have hb : (n.id == i) = false := beq_false_of_ne h
      simp only [hb, Bool.false_eq_true, if_false, List.map_cons]
      rw [List.erase_cons_tail (by simp [hb]), ih]

theorem removeFirstNode_subset {i : String} {l : List Node} {n : Node}
    (h : n ∈ removeFirstNode i l) : n ∈ l := by
  induction l with
  | nil => exact absurd h (List.not_mem_nil n)
  | cons m ms ih =>
    unfold removeFirstNode at h
    split at h
    · exact List.mem_cons_of_mem m h
    · rcases List.mem_cons.mp h with h1 | h2
      · exact h1 ▸ List.mem_cons_self m ms
      · exact List.mem_cons_of_mem m (ih h2)

theorem removeNodeById_edges (g : Graph) (nm : List String) (i : String) :
    (removeNodeById g nm i).1.edges = g.edges := by
  unfold removeNodeById
  split <;> rfl

theorem removeNodeById_nodes_subset {g : Graph} {nm : List String} {i : String} {n : Node}
    (h : n ∈ (removeNodeById g nm i).1.nodes) : n ∈ g.nodes := by
  unfold removeNodeById at h
  split at h
  · exact removeFirstNode_subset h
  · exact h

theorem GInv_removeNodeById {g : Graph} {nm : List String} (i : String) (h : GInv g nm) :
    GInv (removeNodeById g nm i).1 (removeNodeById g nm i).2 := by
  obtain ⟨hsync, hn, he⟩ := h
  unfold removeNodeById
  split
  · refine ⟨?_, ?_, ?_⟩
    · simp only [hsync, removeFirstNode_map_id]
    · rw [removeFirstNode_map_id]
      exact hn.erase i
    · exact he
  · exact ⟨hsync, hn, he⟩

/-- Exhaustive description of the four outcomes of `processImport`:
standard-library skip, internal import, unresolved external skip,
resolved external (exact or sub-package). -/
theorem processImport_eq (mm : String) (av : List String) (pkg : String)
    (st : AnalyzeState) (p : String) :
    (strHas p "." = false ∧ processImport mm av pkg st p = st) ∨
    (strHas p "." = true ∧ strStarts p mm = true ∧
      processImport mm av pkg st p =
        { st with
          graph := addEdge (addNode st.graph st.nodeMap ("import:" ++ p) (baseOf p) "internal" 0).1
                     pkg ("import:" ++ p),
          nodeMap := (addNode st.graph st.nodeMap ("import:" ++ p) (baseOf p) "internal" 0).2 }) ∨
    (strHas p "." = true ∧ strStarts p mm = false ∧ (findRootModule p av).1 = "" ∧
      processImport mm av pkg st p = st) ∨
    (strHas p "." = true ∧ strStarts p mm = false ∧ (findRootModule p av).1 ≠ "" ∧
      ((p = (findRootModule p av).1 ∧
        processImport mm av pkg st p =
          { graph := addEdge (addNode st.graph st.nodeMap (findRootModule p av).1
                       (findRootModule p av).1 "external" 2).1 pkg (findRootModule p av).1,
            nodeMap := (addNode st.graph st.nodeMap (findRootModule p av).1
                       (findRootModule p av).1 "external" 2).2,
            moduleToImporter := st.moduleToImporter ++ [((findRootModule p av).1, pkg)],
            usedModules := insertNew st.usedModules (findRootModule p av).1 }) ∨
       (p ≠ (findRootModule p av).1 ∧
        processImport mm av pkg st p =
          { graph := addEdge (addEdge
              (addNode (addNode st.graph st.nodeMap (findRootModule p av).1
                          (findRootModule p av).1 "external" 2).1
                       (addNode st.graph st.nodeMap (findRootModule p av).1
                          (findRootModule p av).1 "external" 2).2
                       ("import:" ++ p) (importLabelOf p) "external" 1).1
              pkg ("import:" ++ p)) ("import:" ++ p) (findRootModule p av).1,
            nodeMap := (addNode (addNode st.graph st.nodeMap (findRootModule p av).1
                          (findRootModule p av).1 "external" 2).1
                       (addNode st.graph st.nodeMap (findRootModule p av).1
                          (findRootModule p av).1 "external" 2).2
                       ("import:" ++ p) (importLabelOf p) "external" 1).2,
            moduleToImporter := st.moduleToImporter ++ [((findRootModule p av).1, pkg)],
            usedModules := insertNew st.usedModules (findRootModule p av).1 }))) := by
  by_cases h1 : strHas p "." = false
  · exact Or.inl ⟨h1, by simp [processImport, h1]⟩
  · have h1' : strHas p "." = true := by
      cases hb : strHas p "." with
      | false => exact absurd hb h1
      | true => rfl
    by_cases h2 : strStarts p mm = true
    · refine Or.inr (Or.inl ⟨h1', h2, ?_⟩)
      show (if strHas p "." = false then st else _) = _
      rw [if_neg h1, if_pos h2]
    · have h2' : strStarts p mm = false := by
        cases hb : strStarts p mm with
        | false => rfl
        | true => exact absurd hb h2
      by_cases h3 : (findRootModule p av).1 = ""
      · refine Or.inr (Or.inr (Or.inl ⟨h1', h2', h3, ?_⟩))
        show (if strHas p "." = false then st else _) = _
        rw [if_neg h1, if_neg h2]
        show (if (findRootModule p av).1 = "" then st else _) = _
        rw [if_pos h3]
      · by_cases h4 : p = (findRootModule p av).1
        · refine Or.inr (Or.inr (Or.inr ⟨h1', h2', h3, Or.inl ⟨h4, ?_⟩⟩))
          show (if strHas p "." = false then st else _) = _
          rw [if_neg h1, if_neg h2]
          show (if (findRootModule p av).1 = "" then st else _) = _
          rw [if_neg h3]
          show (if p = (findRootModule p av).1 then _ else _) = _
          rw [if_pos h4]
        · refine Or.inr (Or.inr (Or.inr ⟨h1', h2', h3, Or.inr ⟨h4, ?_⟩⟩))
          show (if strHas p "." = false then st else _) = _
          rw [if_neg h1, if_neg h2]
          show (if (findRootModule p av).1 = "" then st else _) = _
          rw [if_neg h3]
          show (if p = (findRootModule p av).1 then _ else _) = _
          rw [if_neg h4]

/-- Exhaustive description of the outcomes of `processFile`: skipped path,
parse failure, or package-node registration followed by the import fold. -/
theorem processFile_eq (pp mm : String) (av : List String) (st : AnalyzeState) (f : SrcFile) :
    ((strEnds f.path ".go" = false ∨ strHas f.path "vendor/" = true) ∧
      processFile pp mm av st f = st) ∨
    (f.parsed = none ∧ processFile pp mm av st f = st) ∨
    (∃ imports, f.parsed = some imports ∧ strEnds f.path ".go" = true ∧
      strHas f.path "vendor/" = false ∧
      processFile pp mm av st f =
        imports.foldl (processImport mm av (packageIdOf pp f.path))
          { st with
            graph := (addNode st.graph st.nodeMap (packageIdOf pp f.path)
                        (displayNameOf pp f.path) "package" 0).1,
            nodeMap := (addNode st.graph st.nodeMap (packageIdOf pp f.path)
                        (displayNameOf pp f.path) "package" 0).2 }) := by
  by_cases h1 : strEnds f.path ".go" = false ∨ strHas f.path "vendor/" = true
  · refine Or.inl ⟨h1, ?_⟩
    have : (strEnds f.path ".go" = false ∨ (strHas f.path "vendor/") = true) := h1
    simp only [processFile]
    rw [if_pos this]
  · cases hp : f.parsed with
    | none =>
      refine Or.inr (Or.inl ⟨rfl, ?_⟩)
      simp only [processFile]
      rw [if_neg h1, hp]
    | some imports =>
      have he : strEnds f.path ".go" = true := by
        cases hb : strEnds f.path ".go" with
        | false => exact absurd (Or.inl hb) h1
        | true => rfl
      have hv : strHas f.path "vendor/" = false := by
        cases hb : strHas f.path "vendor/" with
        | false => rfl
        | true => exact absurd (Or.inr hb) h1
      refine Or.inr (Or.inr ⟨imports, rfl, he, hv, ?_⟩)
      simp only [processFile]
      rw [if_neg h1, hp]

theorem ScanInv_processImport (mm : String) (av : List String) (pkg : String)
    (st : AnalyzeState) (p : String) (h : ScanInv st) :
    ScanInv (processImport mm av pkg st p) := by
  obtain ⟨hg, hn, hu⟩ := h
  rcases processImport_eq mm av pkg st p with ⟨_, heq⟩ | ⟨_, _, heq⟩ | ⟨_, _, _, heq⟩ |
    ⟨_, _, _, ⟨_, heq⟩ | ⟨_, heq⟩⟩ <;> rw [heq]
  · exact ⟨hg, hn, hu⟩
  · refine ⟨GInv_addEdge _ _ (GInv_addNode _ _ _ _ hg), hn, ?_⟩
    intro m hm
    obtain ⟨e, he, ht⟩ := hu m hm
    exact ⟨e, mem_addEdge _ _ (by rw [addNode_edges]; exact he), ht⟩
  · exact ⟨hg, hn, hu⟩
  · refine ⟨GInv_addEdge _ _ (GInv_addNode _ _ _ _ hg), insertNew_nodup _ hn, ?_⟩
    intro m hm
    rcases mem_insertNew.mp hm with hold | hm2
    · obtain ⟨e, he, ht⟩ := hu m hold
      exact ⟨e, mem_addEdge _ _ (by rw [addNode_edges]; exact he), ht⟩
    · rw [hm2]
      exact ⟨⟨pkg, (findRootModule p av).1⟩, self_mem_addEdge _ pkg _, rfl⟩
  · refine ⟨GInv_addEdge _ _ (GInv_addEdge _ _ (GInv_addNode _ _ _ _
      (GInv_addNode _ _ _ _ hg))), insertNew_nodup _ hn, ?_⟩
    intro m hm
    rcases mem_insertNew.mp hm with hold | hm2
    · obtain ⟨e, he, ht⟩ := hu m hold
      refine ⟨e, mem_addEdge _ _ (mem_addEdge _ _ ?_), ht⟩
      rw [addNode_edges, addNode_edges]
      exact he
    · rw [hm2]
      exact ⟨⟨"import:" ++ p, (findRootModule p av).1⟩, self_mem_addEdge _ _ _, rfl⟩

theorem ScanInv_processFile (pp mm : String) (av : List String)
    (st : AnalyzeState) (f : SrcFile) (h : ScanInv st) :
    ScanInv (processFile pp mm av st f) := by
  obtain ⟨hg, hn, hu⟩ := h
  rcases processFile_eq pp mm av st f with ⟨_, heq⟩ | ⟨_, heq⟩ | ⟨imports, _, _, _, heq⟩ <;>
    rw [heq]
  · exact ⟨hg, hn, hu⟩
  · exact ⟨hg, hn, hu⟩
  · refine foldl_inv ?_ (fun st2 x h2 => ScanInv_processImport mm av _ st2 x h2)
    refine ⟨GInv_addNode _ _ _ _ hg, hn, ?_⟩
    intro m hm
    obtain ⟨e, he, ht⟩ := hu m hm
    exact ⟨e, by rw [addNode_edges]; exact he, ht⟩

theorem ScanInv_initState (mf : Option ModFileData) : ScanInv (initState mf) := by
  cases mf with
  | none =>
    exact ⟨⟨rfl, List.nodup_nil, List.nodup_nil⟩, List.nodup_nil, by intro m hm; cases hm⟩
  | some mfd =>
    refine ⟨GInv_addNode _ _ _ _ ⟨rfl, List.nodup_nil, List.nodup_nil⟩, List.nodup_nil, ?_⟩
    intro m hm
    cases hm

theorem ScanInv_scanState (input : ProjectInput) : ScanInv (scanState input) := by
  unfold scanState
  exact foldl_inv (ScanInv_initState input.modfile)
    (fun st f h => ScanInv_processFile _ _ _ st f h)

theorem processImport_nodes_mono {st : AnalyzeState} {n : Node}
    (mm : String) (av : List String) (pkg p : String) (h : n ∈ st.graph.nodes) :
    n ∈ (processImport mm av pkg st p).graph.nodes := by
  rcases processImport_eq mm av pkg st p with ⟨_, heq⟩ | ⟨_, _, heq⟩ | ⟨_, _, _, heq⟩ |
    ⟨_, _, _, ⟨_, heq⟩ | ⟨_, heq⟩⟩ <;> rw [heq]
  · exact h
  · rw [addEdge_nodes]
    exact mem_addNode_nodes _ _ _ _ h
  · exact h
  · show n ∈ (addEdge _ pkg _).nodes
    rw [addEdge_nodes]
    exact mem_addNode_nodes _ _ _ _ h
  · show n ∈ (addEdge _ _ _).nodes
    rw [addEdge_nodes, addEdge_nodes]
    exact mem_addNode_nodes _ _ _ _ (mem_addNode_nodes _ _ _ _ h)

theorem processImport_edges_mono {st : AnalyzeState} {e : Edge}
    (mm : String) (av : List String) (pkg p : String) (h : e ∈ st.graph.edges) :
    (e ∈ (processImport mm av pkg st p).graph.edges) := by
  rcases processImport_eq mm av pkg st p with ⟨_, heq⟩ | ⟨_, _, heq⟩ | ⟨_, _, _, heq⟩ |
    ⟨_, _, _, ⟨_, heq⟩ | ⟨_, heq⟩⟩ <;> rw [heq]
  · exact h
  · exact mem_addEdge _ _ (by rw [addNode_edges]; exact h)
  · exact h
  · exact mem_addEdge _ _ (by rw [addNode_edges]; exact h)
  · exact mem_addEdge _ _ (mem_addEdge _ _ (by rw [addNode_edges, addNode_edges]; exact h))

theorem processImport_nodeMap_mono {st : AnalyzeState} {i : String}
    (mm : String) (av : List String) (pkg p : String) (h : i ∈ st.nodeMap) :
    i ∈ (processImport mm av pkg st p).nodeMap := by
  rcases processImport_eq mm av pkg st p with ⟨_, heq⟩ | ⟨_, _, heq⟩ | ⟨_, _, _, heq⟩ |
    ⟨_, _, _, ⟨_, heq⟩ | ⟨_, heq⟩⟩ <;> rw [heq]
  · exact h
  · rw [show ({ st with
        graph := addEdge (addNode st.graph st.nodeMap ("import:" ++ p) (baseOf p) "internal" 0).1
          pkg ("import:" ++ p),
        nodeMap := (addNode st.graph st.nodeMap ("import:" ++ p) (baseOf p) "internal" 0).2 } :
          AnalyzeState).nodeMap =
      (addNode st.graph st.nodeMap ("import:" ++ p) (baseOf p) "internal" 0).2 from rfl,
      addNode_snd]
    exact mem_insertNew_of_mem _ h
  · exact h
  · show i ∈ (addNode st.graph st.nodeMap _ _ "external" 2).2
    rw [addNode_snd]
    exact mem_insertNew_of_mem _ h
  · show i ∈ (addNode _ _ ("import:" ++ p) (importLabelOf p) "external" 1).2
    rw [addNode_snd, addNode_snd]
    exact mem_insertNew_of_mem _ (mem_insertNew_of_mem _ h)

theorem processImport_used_mono {st : AnalyzeState} {m : String}
    (mm : String) (av : List String) (pkg p : String) (h : m ∈ st.usedModules) :
    m ∈ (processImport mm av pkg st p).usedModules := by
  rcases processImport_eq mm av pkg st p with ⟨_, heq⟩ | ⟨_, _, heq⟩ | ⟨_, _, _, heq⟩ |
    ⟨_, _, _, ⟨_, heq⟩ | ⟨_, heq⟩⟩ <;> rw [heq]
  · exact h
  · exact h
  · exact h
  · exact mem_insertNew_of_mem _ h
  · exact mem_insertNew_of_mem _ h

theorem processFile_nodes_mono {st : AnalyzeState} {n : Node}
    (pp mm : String) (av : List String) (f : SrcFile) (h : n ∈ st.graph.nodes) :
    n ∈ (processFile pp mm av st f).graph.nodes := by
  rcases processFile_eq pp mm av st f with ⟨_, heq⟩ | ⟨_, heq⟩ | ⟨imports, _, _, _, heq⟩ <;>
    rw [heq]
  · exact h
  · exact h
  · refine foldl_inv (P := fun (st2 : AnalyzeState) => n ∈ st2.graph.nodes) ?_
      (fun st2 x h2 => processImport_nodes_mono mm av _ x h2)
    exact mem_addNode_nodes _ _ _ _ h

theorem processFile_edges_mono {st : AnalyzeState} {e : Edge}
    (pp mm : String) (av : List String) (f : SrcFile) (h : e ∈ st.graph.edges) :
    e ∈ (processFile pp mm av st f).graph.edges := by
  rcases processFile_eq pp mm av st f with ⟨_, heq⟩ | ⟨_, heq⟩ | ⟨imports, _, _, _, heq⟩ <;>
    rw [heq]
  · exact h
  · exact h
  · refine foldl_inv (P := fun (st2 : AnalyzeState) => e ∈ st2.graph.edges) ?_
      (fun st2 x h2 => processImport_edges_mono mm av _ x h2)
    show e ∈ (addNode st.graph st.nodeMap (packageIdOf pp f.path)
      (displayNameOf pp f.path) "package" 0).1.edges
    rw [addNode_edges]
    exact h

theorem processFile_nodeMap_mono {st : AnalyzeState} {i : String}
    (pp mm : String) (av : List String) (f : SrcFile) (h : i ∈ st.nodeMap) :
    i ∈ (processFile pp mm av st f).nodeMap := by
  rcases processFile_eq pp mm av st f with ⟨_, heq⟩ | ⟨_, heq⟩ | ⟨imports, _, _, _, heq⟩ <;>
    rw [heq]
  · exact h
  · exact h
  · refine foldl_inv (P := fun (st2 : AnalyzeState) => i ∈ st2.nodeMap) ?_
      (fun st2 x h2 => processImport_nodeMap_mono mm av _ x h2)
    show i ∈ (addNode st.graph st.nodeMap _ _ "package" 0).2
    rw [addNode_snd]
    exact mem_insertNew_of_mem _ h

theorem processFile_used_mono {st : AnalyzeState} {m : String}
    (pp mm : String) (av : List String) (f : SrcFile) (h : m ∈ st.usedModules) :
    m ∈ (processFile pp mm av st f).usedModules := by
  rcases processFile_eq pp mm av st f with ⟨_, heq⟩ | ⟨_, heq⟩ | ⟨imports, _, _, _, heq⟩ <;>
    rw [heq]
  · exact h
  · exact h
  · exact foldl_inv (P := fun (st2 : AnalyzeState) => m ∈ st2.usedModules) h
      (fun st2 x h2 => processImport_used_mono mm av _ x h2)

/-- Both components of `removeNodeById` depend only on the node list and
the index, not on the edges. -/
theorem removeNodeById_congr {g1 g2 : Graph} {nm1 nm2 : List String} (i : String)
    (hn : g1.nodes = g2.nodes) (hm : nm1 = nm2) :
    (removeNodeById g1 nm1 i).1.nodes = (removeNodeById g2 nm2 i).1.nodes ∧
    (removeNodeById g1 nm1 i).2 = (removeNodeById g2 nm2 i).2 := by
  unfold removeNodeById
  rw [hn, hm]
  split
  · exact ⟨rfl, rfl⟩
  · exact ⟨hn, rfl⟩

theorem repairModule_edges_mono {acc : Graph × List String} {e : Edge}
    (mf : Option ModFileData) (mm : String) (di ul : List String) (m : String)
    (h : e ∈ acc.1.edges) : e ∈ (repairModule mf mm di ul acc m).1.edges := by
  unfold repairModule
  by_cases hd : directLookup mf m = true
  · rw [if_pos hd]
    exact mem_addEdge _ _ h
  · rw [if_neg hd]
    cases hf : di.find? (fun d => parentMatch mf ul m d) with
    | some dm =>
      exact mem_addEdge _ _ h
    | none =>
      show e ∈ (removeNodeById acc.1 acc.2 m).1.edges
      rw [removeNodeById_edges]
      exact h

theorem repairModule_nodes_shrink {acc : Graph × List String} {n : Node}
    (mf : Option ModFileData) (mm : String) (di ul : List String) (m : String)
    (h : n ∈ (repairModule mf mm di ul acc m).1.nodes) : n ∈ acc.1.nodes := by
  unfold repairModule at h
  by_cases hd : directLookup mf m = true
  · rw [if_pos hd] at h
    rw [addEdge_nodes] at h
    exact h
  · rw [if_neg hd] at h
    cases hf : di.find? (fun d => parentMatch mf ul m d) with
    | some dm =>
      rw [hf] at h
      replace h : n ∈ (addEdge acc.1 dm m).nodes := h
      rw [addEdge_nodes] at h
      exact h
    | none =>
      rw [hf] at h
      exact removeNodeById_nodes_subset h

theorem GInv_repairModule {acc : Graph × List String}
    (mf : Option ModFileData) (mm : String) (di ul : List String) (m : String)
    (h : GInv acc.1 acc.2) : GInv (repairModule mf mm di ul acc m).1 (repairModule mf mm di ul acc m).2 := by
  unfold repairModule
  by_cases hd : directLookup mf m = true
  · rw [if_pos hd]
    exact GInv_addEdge _ _ h
  · rw [if_neg hd]
    cases hf : di.find? (fun d => parentMatch mf ul m d) with
    | some dm =>
      exact GInv_addEdge _ _ h
    | none =>
      exact GInv_removeNodeById _ h

/-- After the repair step removes an orphan module, no node carries its id. -/
theorem removeNodeById_not_mem {g : Graph} {nm : List String} (i : String)
    (h : (g.nodes.map Node.id).Nodup) :
    i ∉ (removeNodeById g nm i).1.nodes.map Node.id := by
  unfold removeNodeById
  split
  · show i ∉ (removeFirstNode i g.nodes).map Node.id
    rw [removeFirstNode_map_id]
    exact h.not_mem_erase
  · rename_i hc
    intro hmem
    obtain ⟨n, hn, hni⟩ := List.mem_map.mp hmem
    exact hc (List.any_eq_true.mpr ⟨n, hn, by simp [hni]⟩)

theorem repairModule_id_absent {acc : Graph × List String} {i : String}
    (mf : Option ModFileData) (mm : String) (di ul : List String) (m : String)
    (h : i ∉ acc.1.nodes.map Node.id) :
    i ∉ (repairModule mf mm di ul acc m).1.nodes.map Node.id := by
  intro hmem
  obtain ⟨n, hn, hni⟩ := List.mem_map.mp hmem
  exact h (List.mem_map.mpr ⟨n, repairModule_nodes_shrink mf mm di ul m hn, hni⟩)

/-- The repair step for an orphan indirect module is exactly the node
removal. -/
theorem repairModule_orphan {acc : Graph × List String}
    (mf : Option ModFileData) (mm : String) (di ul : List String) (m : String)
    (hd : directLookup mf m = false)
    (hf : di.find? (fun d => parentMatch mf ul m d) = none) :
    repairModule mf mm di ul acc m = removeNodeById acc.1 acc.2 m := by
  unfold repairModule
  rw [if_neg (by simp [hd]), hf]

theorem rootFold_le (p : String) (mods : List String) (acc : String × Nat) :
    acc.2 ≤ (mods.foldl
      (fun acc modulePath =>
        if strStarts p modulePath ∧ acc.2 < modulePath.length then
          (modulePath, modulePath.length)
        else acc) acc).2 := by
  induction mods generalizing acc with
  | nil => exact le_refl _
  | cons m ms ih =>
    simp only [List.foldl_cons]
    refine le_trans ?_ (ih _)
    by_cases h : strStarts p m ∧ acc.2 < m.length
    · rw [if_pos h]
      exact le_of_lt h.2
    · rw [if_neg h]

theorem rootFold_max (p : String) (mods : List String) (acc : String × Nat) (m : String)
    (hm : m ∈ mods) (hp : strStarts p m = true) :
    m.length ≤ (mods.foldl
      (fun acc modulePath =>
        if strStarts p modulePath ∧ acc.2 < modulePath.length then
          (modulePath, modulePath.length)
        else acc) acc).2 := by
  induction mods generalizing acc with
  | nil => cases hm
  | cons m2 ms ih =>
    simp only [List.foldl_cons]
    rcases List.mem_cons.mp hm with heq | hmem
    · subst heq
      refine le_trans ?_ (rootFold_le p ms _)
      by_cases h : strStarts p m ∧ acc.2 < m.length
      · rw [if_pos h]
      · rw [if_neg h]
        exact le_of_not_lt (fun hlt => h ⟨hp, hlt⟩)
    · exact ih _ hmem

theorem rootFold_shape (p : String) (mods : List String) (acc : String × Nat) :
    (mods.foldl
      (fun acc modulePath =>
        if strStarts p modulePath ∧ acc.2 < modulePath.length then
          (modulePath, modulePath.length)
        else acc) acc) = acc ∨
    ((mods.foldl
      (fun acc modulePath =>
        if strStarts p modulePath ∧ acc.2 < modulePath.length then
          (modulePath, modulePath.length)
        else acc) acc).1 ∈ mods ∧
     strStarts p (mods.foldl
      (fun acc modulePath =>
        if strStarts p modulePath ∧ acc.2 < modulePath.length then
          (modulePath, modulePath.length)
        else acc) acc).1 = true ∧
     (mods.foldl
      (fun acc modulePath =>
        if strStarts p modulePath ∧ acc.2 < modulePath.length then
          (modulePath, modulePath.length)
        else acc) acc).2 = (mods.foldl
      (fun acc modulePath =>
        if strStarts p modulePath ∧ acc.2 < modulePath.length then
          (modulePath, modulePath.length)
        else acc) acc).1.length) := by
  induction mods generalizing acc with
  | nil => exact Or.inl rfl
  | cons m ms ih =>
    simp only [List.foldl_cons]
    by_cases h : strStarts p m ∧ acc.2 < m.length
    · rw [if_pos h]
      rcases ih (m, m.length) with heq | ⟨h1, h2, h3⟩
      · refine Or.inr ?_
        rw [heq]
        exact ⟨List.mem_cons_self m ms, h.1, rfl⟩
      · exact Or.inr ⟨List.mem_cons_of_mem m h1, h2, h3⟩
    · rw [if_neg h]
      rcases ih acc with heq | ⟨h1, h2, h3⟩
      · exact Or.inl heq
      · exact Or.inr ⟨List.mem_cons_of_mem m h1, h2, h3⟩

theorem str_empty_of_length_le_zero {s : String} (h : s.length ≤ 0) : s = "" := by
  apply String.ext
  have h0 : s.data.length = 0 := Nat.le_zero.mp h
  exact List.eq_nil_of_length_eq_zero h0

theorem strStarts_empty (p : String) : strStarts p "" = true := by
  show ("".toList).isPrefixOf p.toList = true
  simp [List.isPrefixOf]

theorem importLabelOf_eq (p : String) :
    importLabelOf p =
      if 40 < p.length ∧ 2 < (splitSlash p).length then
        (splitSlash p).headD "" ++ "/.../" ++ (splitSlash p).getLastD ""
      else p := by
  unfold importLabelOf
  by_cases h1 : 40 < p.length
  · rw [if_pos h1]
    show (if 2 < (splitSlash p).length then _ else p) = _
    by_cases h2 : 2 < (splitSlash p).length
    · rw [if_pos h2, if_pos ⟨h1, h2⟩]
    · rw [if_neg h2, if_neg (fun hand => h2 hand.2)]
  · rw [if_neg h1, if_neg (fun hand => h1 hand.1)]

/-- C1: for every import path and every declared-module set, the external
resolver selects, among the declared modules that are string prefixes of
the import path, one of greatest length.  The first conjunct identifies
the embedded prefix test with the list-prefix relation; the middle
conjunct is the general longest-prefix property; the last two conjuncts
instantiate the spec's example: with declared modules
{"a.io/x", "a.io/x/y"} in either enumeration order, the import
"a.io/x/y/z" resolves to "a.io/x/y" and never to "a.io/x". -/
theorem C1_longest_prefix_resolution :
    (∀ s pre : String, strStarts s pre = true ↔ pre.toList <+: s.toList) ∧
    (∀ (p : String) (mods : List String), (∃ m ∈ mods, strStarts p m = true) →
      (findRootModule p mods).1 ∈ mods ∧
      strStarts p (findRootModule p mods).1 = true ∧
      ∀ m ∈ mods, strStarts p m = true → m.length ≤ (findRootModule p mods).1.length) ∧
    (findRootModule "a.io/x/y/z" ["a.io/x", "a.io/x/y"]).1 = "a.io/x/y" ∧
    (findRootModule "a.io/x/y/z" ["a.io/x/y", "a.io/x"]).1 = "a.io/x/y" := by
  refine ⟨fun s pre => List.isPrefixOf_iff_prefix, ?_, by decide, by decide⟩
  intro p mods hex
  obtain ⟨m0, hm0, hp0⟩ := hex
  unfold findRootModule
  rcases rootFold_shape p mods ("", 0) with heq | ⟨h1, h2, h3⟩
  · have hm0len := rootFold_max p mods ("", 0) m0 hm0 hp0
    rw [heq] at hm0len
    have hm0e : m0 = "" := str_empty_of_length_le_zero hm0len
    rw [heq]
    refine ⟨hm0e ▸ hm0, strStarts_empty p, ?_⟩
    intro m hm hp
    have hlen := rootFold_max p mods ("", 0) m hm hp
    rw [heq] at hlen
    simpa using hlen
  · refine ⟨h1, h2, ?_⟩
    intro m hm hp
    have hlen := rootFold_max p mods ("", 0) m hm hp
    rw [h3] at hlen
    exact hlen

/-- C1 witness: the general part of `C1_longest_prefix_resolution`
instantiated at the spec's example. -/
theorem C1_longest_prefix_resolution_witness :
    (findRootModule "a.io/x/y/z" ["a.io/x", "a.io/x/y"]).1 ∈ ["a.io/x", "a.io/x/y"] ∧
    strStarts "a.io/x/y/z" (findRootModule "a.io/x/y/z" ["a.io/x", "a.io/x/y"]).1 = true ∧
    ∀ m ∈ ["a.io/x", "a.io/x/y"], strStarts "a.io/x/y/z" m = true →
      m.length ≤ (findRootModule "a.io/x/y/z" ["a.io/x", "a.io/x/y"]).1.length :=
  C1_longest_prefix_resolution.2.1 "a.io/x/y/z" ["a.io/x", "a.io/x/y"]
    ⟨"a.io/x", by decide, by decide⟩

/-- C3 counterexample: the import path "foo/bar.v1" has no dot before its
first separator (its first segment "foo" contains no dot), yet the run on
`noModInput` produces a node and an edge referencing it in the final
graph, so the claim as stated is false for the code. -/
theorem C3_counterexample :
    strHas (firstSeg "foo/bar.v1") "." = false ∧
    (∃ n ∈ (analyzeProject noModInput []).1.nodes, n.id = "import:" ++ "foo/bar.v1") ∧
    (∃ e ∈ (analyzeProject noModInput []).1.edges, e.target = "import:" ++ "foo/bar.v1") := by
  refine ⟨by decide, by decide, by decide⟩

/-- C3 (amended): the standard-library filter drops exactly the import
paths containing no dot anywhere: processing such a path leaves the
analysis state unchanged, so it produces no node and no edge; a path with
a dot only after the first separator is not filtered. -/
theorem C3_stdlib_filter (mm : String) (av : List String) (pkg : String)
    (st : AnalyzeState) (p : String) (h : strHas p "." = false) :
    processImport mm av pkg st p = st := by
  unfold processImport
  rw [if_pos h]

/-- C3 witness: the standard-library import "fmt" is dropped. -/
theorem C3_stdlib_filter_witness :
    strHas "fmt" "." = false ∧
    processImport "" [] "pkg:root" emptyState "fmt" = emptyState :=
  ⟨by decide, C3_stdlib_filter "" [] "pkg:root" emptyState "fmt" (by decide)⟩

/-- C8: an external import of which no declared module is a prefix is
dropped: processing it leaves the state unchanged (first conjunct), and
concretely the run on `unresolvedInput` contains no node and no edge
referencing the import "unknown.org/lib/sub" in any position. -/
theorem C8_unresolved_import_dropped :
    (∀ (mm : String) (av : List String) (pkg : String) (st : AnalyzeState) (p : String),
      strStarts p mm = false → (findRootModule p av).1 = "" →
      processImport mm av pkg st p = st) ∧
    (∀ n ∈ (analyzeProject unresolvedInput ["github.com/gorilla/websocket"]).1.nodes,
      n.id ≠ "unknown.org/lib/sub" ∧ n.id ≠ "import:" ++ "unknown.org/lib/sub") ∧
    (∀ e ∈ (analyzeProject unresolvedInput ["github.com/gorilla/websocket"]).1.edges,
      e.source ≠ "unknown.org/lib/sub" ∧ e.source ≠ "import:" ++ "unknown.org/lib/sub" ∧
      e.target ≠ "unknown.org/lib/sub" ∧ e.target ≠ "import:" ++ "unknown.org/lib/sub") := by
  refine ⟨?_, by decide, by decide⟩
  intro mm av pkg st p hmm hroot
  unfold processImport
  by_cases h1 : strHas p "." = false
  · rw [if_pos h1]
  · rw [if_neg h1, if_neg (by simp [hmm])]
    show (if (findRootModule p av).1 = "" then st else _) = st
    rw [if_pos hroot]

/-- C8 witness: the unresolved import "unknown.org/lib/sub" leaves the
empty state unchanged. -/
theorem C8_unresolved_import_dropped_witness :
    processImport "m.io/app" ["github.com/gorilla/websocket"] "pkg:root" emptyState
      "unknown.org/lib/sub" = emptyState :=
  C8_unresolved_import_dropped.1 "m.io/app" ["github.com/gorilla/websocket"] "pkg:root"
    emptyState "unknown.org/lib/sub" (by decide) (by decide)

/-- C9: a source file that fails to parse is recovered locally: inserting
it anywhere in the walk sequence changes nothing in the result, and the
error component of the run is exactly the tree-walk error (so a parse
failure never surfaces as a run-level error). -/
theorem C9_parse_failure_recovered (input : ProjectInput) (pre post : List SrcFile)
    (f : SrcFile) (d : List String) (hf : f.parsed = none) :
    analyzeProject { input with files := pre ++ f :: post } d =
      analyzeProject { input with files := pre ++ post } d ∧
    (analyzeProject { input with files := pre ++ f :: post } d).2 = input.walkError := by
  have hskip : ∀ st : AnalyzeState, processFile input.projectPath (mainModuleOf input.modfile)
      (availableModulesOf input.modfile) st f = st := by
    intro st
    rcases processFile_eq input.projectPath (mainModuleOf input.modfile)
      (availableModulesOf input.modfile) st f with ⟨_, heq⟩ | ⟨_, heq⟩ | ⟨imports, hp, _, _, _⟩
    · exact heq
    · exact heq
    · rw [hf] at hp
      cases hp
  have hscan : scanState { input with files := pre ++ f :: post } =
      scanState { input with files := pre ++ post } := by
    show (pre ++ f :: post).foldl (processFile input.projectPath (mainModuleOf input.modfile)
        (availableModulesOf input.modfile)) (initState input.modfile) =
      (pre ++ post).foldl (processFile input.projectPath (mainModuleOf input.modfile)
        (availableModulesOf input.modfile)) (initState input.modfile)
    rw [List.foldl_append, List.foldl_append, List.foldl_cons, hskip]
  constructor
  · unfold analyzeProject
    rw [hscan]
  · rfl

/-- C9 witness: a broken file inserted in front of the project of
`orphanInput` changes nothing. -/
theorem C9_parse_failure_recovered_witness :
    analyzeProject { orphanInput with
        files := [] ++ { path := "broken.go", parsed := none } :: orphanInput.files }
      ["z.io/orphan"] =
      analyzeProject { orphanInput with files := [] ++ orphanInput.files } ["z.io/orphan"] :=
  (C9_parse_failure_recovered orphanInput [] orphanInput.files
    { path := "broken.go", parsed := none } ["z.io/orphan"] rfl).1

/-- C7 counterexample: two resolvable external import paths of identical
length 42, both over the 40-character threshold; the three-segment one is
shortened but the two-segment one keeps its full label (also in the node
actually created for it), so no length threshold alone governs label
shortening as the claim states. -/
theorem C7_counterexample :
    longPath2.length = 42 ∧ longPath3.length = 42 ∧ 40 < longPath2.length ∧
    importLabelOf longPath2 = longPath2 ∧
    importLabelOf longPath3 = "aaaaaaaaaaaaaaaaaaaaaaaaaaaaaaaaaa.io/.../cc" ∧
    (∃ n ∈ (processImport "m.io/app" ["aaaaaaaaaaaaaaaaaaaaaaaaaaaaaaaaaaaa.io"] "pkg:root"
        emptyState longPath2).graph.nodes,
      n.id = "import:" ++ longPath2 ∧ n.label = longPath2) := by
  exact ⟨by decide, by decide, by decide, by decide, by decide, by decide⟩

/-- C7 (amended): for an external import path p that resolves to declared
module r: when p = r, the edge package → r is added and no import node is
created (the node index gains at most r itself); when p ≠ r, the node
index gains r and "import:" + p, the edges package → import as well as
the edge import → r are added, and if the import node is fresh it carries kind
external, depth 1, and a label that is shortened to first segment +
ellipsis + last segment exactly when p exceeds 40 characters AND splits
into more than two path segments (otherwise the full path). -/
theorem C7_external_import_nodes (mm : String) (av : List String) (pkg : String)
    (st : AnalyzeState) (p : String)
    (hdot : strHas p "." = true) (hmm : strStarts p mm = false)
    (hr : (findRootModule p av).1 ≠ "") :
    (p = (findRootModule p av).1 →
      (⟨pkg, (findRootModule p av).1⟩ : Edge) ∈ (processImport mm av pkg st p).graph.edges ∧
      (processImport mm av pkg st p).nodeMap = insertNew st.nodeMap (findRootModule p av).1) ∧
    (p ≠ (findRootModule p av).1 →
      (⟨pkg, "import:" ++ p⟩ : Edge) ∈ (processImport mm av pkg st p).graph.edges ∧
      (⟨"import:" ++ p, (findRootModule p av).1⟩ : Edge) ∈
        (processImport mm av pkg st p).graph.edges ∧
      (processImport mm av pkg st p).nodeMap =
        insertNew (insertNew st.nodeMap (findRootModule p av).1) ("import:" ++ p) ∧
      (("import:" ++ p) ∉ insertNew st.nodeMap (findRootModule p av).1 →
        ({ id := "import:" ++ p, label := importLabelOf p, type := "external",
           depth := 1 } : Node) ∈ (processImport mm av pkg st p).graph.nodes) ∧
      importLabelOf p = (if 40 < p.length ∧ 2 < (splitSlash p).length then
        (splitSlash p).headD "" ++ "/.../" ++ (splitSlash p).getLastD "" else p)) := by
  rcases processImport_eq mm av pkg st p with ⟨hc, _⟩ | ⟨_, hc, _⟩ | ⟨_, _, hc, _⟩ |
    ⟨_, _, _, ⟨hpe, heq⟩ | ⟨hpne, heq⟩⟩
  · rw [hc] at hdot
    cases hdot
  · rw [hc] at hmm
    cases hmm
  · exact absurd hc hr
  · constructor
    · intro _
      rw [heq]
      constructor
      · exact self_mem_addEdge _ pkg _
      · show (addNode st.graph st.nodeMap (findRootModule p av).1
          (findRootModule p av).1 "external" 2).2 = _
        rw [addNode_snd]
    · intro hp
      exact absurd hpe hp
  · constructor
    · intro hp
      exact absurd hp hpne
    · intro _
      rw [heq]
      refine ⟨mem_addEdge _ _ (self_mem_addEdge _ pkg _), self_mem_addEdge _ _ _, ?_, ?_,
        importLabelOf_eq p⟩
      · show (addNode (addNode st.graph st.nodeMap (findRootModule p av).1
            (findRootModule p av).1 "external" 2).1
          (addNode st.graph st.nodeMap (findRootModule p av).1
            (findRootModule p av).1 "external" 2).2
          ("import:" ++ p) (importLabelOf p) "external" 1).2 = _
        rw [addNode_snd, addNode_snd]
      · intro hfresh
        show (⟨"import:" ++ p, importLabelOf p, "external", 1⟩ : Node) ∈ (addEdge (addEdge
              (addNode (addNode st.graph st.nodeMap (findRootModule p av).1
                  (findRootModule p av).1 "external" 2).1
                (addNode st.graph st.nodeMap (findRootModule p av).1
                  (findRootModule p av).1 "external" 2).2
                ("import:" ++ p) (importLabelOf p) "external" 1).1
              pkg ("import:" ++ p))
            ("import:" ++ p) (findRootModule p av).1).nodes
        rw [addEdge_nodes, addEdge_nodes, addNode_nodes]
        rw [if_neg (fun hcont => hfresh (List.elem_iff.mp (by
          rw [addNode_snd] at hcont
          exact hcont)))]
        exact List.mem_append_right _ (List.mem_singleton.mpr rfl)

/-- C7 witness: a resolved sub-package import creates the import node and
its two edges. -/
theorem C7_external_import_nodes_witness :
    (⟨"pkg:root", "import:" ++ "x.io/mod/sub"⟩ : Edge) ∈
      (processImport "m.io/app" ["x.io/mod"] "pkg:root" emptyState "x.io/mod/sub").graph.edges :=
  ((C7_external_import_nodes "m.io/app" ["x.io/mod"] "pkg:root" emptyState "x.io/mod/sub"
      (by decide) (by decide) (by decide)).2 (by decide)).1

theorem foldl_rel {α β : Type} {R : α → α → Prop} {f1 f2 : α → β → α} (l : List β)
    (a1 a2 : α) (h0 : R a1 a2) (hstep : ∀ b1 b2 x, R b1 b2 → R (f1 b1 x) (f2 b2 x)) :
    R (l.foldl f1 a1) (l.foldl f2 a2) := by
  induction l generalizing a1 a2 with
  | nil => exact h0
  | cons x xs ih => exact ih _ _ (hstep a1 a2 x h0)

/-- Permuting the enumeration order of the direct-module map can change
which parent edge is added, but never the node list or the index. -/
theorem repairModule_perm {o1 o2 : List String} (hperm : o1.Perm o2)
    (mf : Option ModFileData) (mm : String) (ul : List String) (m : String)
    {acc1 acc2 : Graph × List String}
    (hn : acc1.1.nodes = acc2.1.nodes) (hm2 : acc1.2 = acc2.2) :
    (repairModule mf mm o1 ul acc1 m).1.nodes = (repairModule mf mm o2 ul acc2 m).1.nodes ∧
    (repairModule mf mm o1 ul acc1 m).2 = (repairModule mf mm o2 ul acc2 m).2 := by
  unfold repairModule
  by_cases hd : directLookup mf m = true
  · rw [if_pos hd, if_pos hd]
    constructor
    · show (addEdge acc1.1 mm m).nodes = (addEdge acc2.1 mm m).nodes
      rw [addEdge_nodes, addEdge_nodes]
      exact hn
    · exact hm2
  · rw [if_neg hd, if_neg hd]
    cases hf1 : o1.find? (fun d => parentMatch mf ul m d) with
    | some d1 =>
      have hex : ∃ x ∈ o2, parentMatch mf ul m x = true :=
        ⟨d1, hperm.mem_iff.mp (List.mem_of_find?_eq_some hf1), List.find?_some hf1⟩
      obtain ⟨d2, hf2⟩ := Option.isSome_iff_exists.mp (List.find?_isSome.mpr hex)
      rw [hf2]
      constructor
      · show (addEdge acc1.1 d1 m).nodes = (addEdge acc2.1 d2 m).nodes
        rw [addEdge_nodes, addEdge_nodes]
        exact hn
      · exact hm2
    | none =>
      have hf2 : o2.find? (fun d => parentMatch mf ul m d) = none :=
        List.find?_eq_none.mpr (fun x hx => List.find?_eq_none.mp hf1 x (hperm.mem_iff.mpr hx))
      rw [hf2]
      exact removeNodeById_congr m hn hm2

/-- C6: in every produced graph no two nodes share an id and no two edges
share a (source, target) pair; and re-adding an existing node id is a
no-op on both the graph and the index, so the label, kind and depth of
the first insertion persist. -/
theorem C6_uniqueness :
    (∀ (input : ProjectInput) (directIter : List String),
      ((analyzeProject input directIter).1.nodes.map Node.id).Nodup ∧
      (edgeKeys (analyzeProject input directIter).1).Nodup) ∧
    (∀ (g : Graph) (nm : List String) (i l t : String) (d : Nat),
      nm.contains i = true → addNode g nm i l t d = (g, nm)) := by
  constructor
  · intro input directIter
    have hscan := ScanInv_scanState input
    have hfold : GInv ((scanState input).usedModules.foldl
        (repairModule input.modfile (mainModuleOf input.modfile) directIter
          (scanState input).usedModules)
        ((scanState input).graph, (scanState input).nodeMap)).1
        ((scanState input).usedModules.foldl
        (repairModule input.modfile (mainModuleOf input.modfile) directIter
          (scanState input).usedModules)
        ((scanState input).graph, (scanState input).nodeMap)).2 := by
      refine foldl_inv (P := fun (acc : Graph × List String) => GInv acc.1 acc.2) hscan.1 ?_
      exact fun acc m h => GInv_repairModule _ _ _ _ m h
    exact ⟨hfold.2.1, hfold.2.2⟩
  · intro g nm i l t d h
    unfold addNode
    rw [if_pos h]

/-- C6 witness: node ids are duplicate-free on a concrete run, and
re-adding the id "a" leaves graph and index untouched. -/
theorem C6_uniqueness_witness :
    ((analyzeProject orphanInput ["z.io/orphan"]).1.nodes.map Node.id).Nodup ∧
    addNode { nodes := [], edges := [] } ["a"] "a" "lbl" "main" 0 =
      ({ nodes := [], edges := [] }, ["a"]) :=
  ⟨(C6_uniqueness.1 orphanInput ["z.io/orphan"]).1,
   C6_uniqueness.2 { nodes := [], edges := [] } ["a"] "a" "lbl" "main" 0 (by decide)⟩

/-- C4: evaluation at the failing input: the graph produced on
`orphanInput` contains an edge (pkg:root → z.io/orphan, left over from the
scan phase) whose target id is carried by no node of the final node list,
because the repair pass removed the orphan module node without removing
its edges. -/
theorem C4_dangling_edge :
    ∃ e ∈ orphanGraph.edges, ∀ n ∈ orphanGraph.nodes, n.id ≠ e.target := by
  decide

/-- C2 counterexample: on `orphanInput`, the orphaned indirect module
"z.io/orphan" is removed from the node list, yet its id still appears in
the output, namely in the scan-phase edge pkg:root → z.io/orphan, so it
does not vanish from the output "at all" as the claim states. -/
theorem C2_counterexample :
    "z.io/orphan" ∉ orphanGraph.nodes.map Node.id ∧
    (∃ e ∈ orphanGraph.edges, e.target = "z.io/orphan") := by
  exact ⟨by decide, by decide⟩

/-- C2 (amended): after the repair pass, (A) every used indirect module
whose node is present in the final graph has at least one incoming edge;
and (B) a used indirect module for which no declared module passes the
direct-and-used parent test is removed from the node list and from the id
index.  (Scan-phase edges that reference the removed id remain in the
edge list, which is why the original "does not appear in the output at
all" fails.) -/
theorem C2_orphan_repair :
    (∀ (input : ProjectInput) (directIter : List String) (m : String),
      m ∈ (scanState input).usedModules →
      directLookup input.modfile m = false →
      m ∈ (analyzeProject input directIter).1.nodes.map Node.id →
      ∃ e ∈ (analyzeProject input directIter).1.edges, e.target = m) ∧
    (∀ (input : ProjectInput) (directIter : List String) (m : String),
      directIter.Perm (availableModulesOf input.modfile) →
      m ∈ (scanState input).usedModules →
      directLookup input.modfile m = false →
      (∀ d ∈ availableModulesOf input.modfile,
        parentMatch input.modfile (scanState input).usedModules m d = false) →
      m ∉ (analyzeProject input directIter).1.nodes.map Node.id ∧
      m ∉ ((scanState input).usedModules.foldl
        (repairModule input.modfile (mainModuleOf input.modfile) directIter
          (scanState input).usedModules)
        ((scanState input).graph, (scanState input).nodeMap)).2) := by
  constructor
  · intro input directIter m hm hind _
    have hscan := ScanInv_scanState input
    obtain ⟨e, he, ht⟩ := hscan.2.2 m hm
    have : e ∈ ((scanState input).usedModules.foldl
        (repairModule input.modfile (mainModuleOf input.modfile) directIter
          (scanState input).usedModules)
        ((scanState input).graph, (scanState input).nodeMap)).1.edges := by
      refine foldl_inv (P := fun (acc : Graph × List String) => e ∈ acc.1.edges) he ?_
      exact fun acc x h => repairModule_edges_mono _ _ _ _ x h
    exact ⟨e, this, ht⟩
  · intro input directIter m hperm hm hind hnp
    have hscan := ScanInv_scanState input
    obtain ⟨u1, u2, hsplit⟩ := List.append_of_mem hm
    have habsent : m ∉ ((scanState input).usedModules.foldl
        (repairModule input.modfile (mainModuleOf input.modfile) directIter
          (scanState input).usedModules)
        ((scanState input).graph, (scanState input).nodeMap)).1.nodes.map Node.id := by
      rw [hsplit, List.foldl_append, List.foldl_cons]
      refine foldl_inv
        (P := fun (acc : Graph × List String) => m ∉ acc.1.nodes.map Node.id) ?_
        (fun acc x h => repairModule_id_absent _ _ _ _ x h)
      have hGacc1 : GInv (u1.foldl
          (repairModule input.modfile (mainModuleOf input.modfile) directIter
            (u1 ++ m :: u2))
          ((scanState input).graph, (scanState input).nodeMap)).1
          (u1.foldl
          (repairModule input.modfile (mainModuleOf input.modfile) directIter
            (u1 ++ m :: u2))
          ((scanState input).graph, (scanState input).nodeMap)).2 := by
        refine foldl_inv (P := fun (acc : Graph × List String) => GInv acc.1 acc.2)
          hscan.1 ?_
        exact fun acc x h => GInv_repairModule _ _ _ _ x h
      have hf : directIter.find?
          (fun d => parentMatch input.modfile (u1 ++ m :: u2) m d) = none := by
        refine List.find?_eq_none.mpr ?_
        intro d hd2
        have hx := hnp d (hperm.mem_iff.mp hd2)
        rw [← hsplit]
        simp [hx]
      rw [repairModule_orphan _ _ _ _ _ hind hf]
      exact removeNodeById_not_mem m hGacc1.2.1
    constructor
    · exact habsent
    · have hGfin : GInv ((scanState input).usedModules.foldl
          (repairModule input.modfile (mainModuleOf input.modfile) directIter
            (scanState input).usedModules)
          ((scanState input).graph, (scanState input).nodeMap)).1
          ((scanState input).usedModules.foldl
          (repairModule input.modfile (mainModuleOf input.modfile) directIter
            (scanState input).usedModules)
          ((scanState input).graph, (scanState input).nodeMap)).2 := by
        refine foldl_inv (P := fun (acc : Graph × List String) => GInv acc.1 acc.2)
          hscan.1 ?_
        exact fun acc x h => GInv_repairModule _ _ _ _ x h
      rw [hGfin.1]
      exact habsent

/-- C2 witness: on `permInput` the kept indirect module x.io/r has an
incoming edge; on `orphanInput` the orphan z.io/orphan is gone from the
node list. -/
theorem C2_orphan_repair_witness :
    (∃ e ∈ (analyzeProject permInput permOrder1).1.edges, e.target = "x.io/r") ∧
    "z.io/orphan" ∉ (analyzeProject orphanInput ["z.io/orphan"]).1.nodes.map Node.id :=
  ⟨C2_orphan_repair.1 permInput permOrder1 "x.io/r" (by decide) (by decide) (by decide),
   (C2_orphan_repair.2 orphanInput ["z.io/orphan"] "z.io/orphan" (by decide) (by decide)
     (by decide) (by decide)).1⟩

/-- C5 counterexample: `permOrder1` and `permOrder2` are both enumeration
orders of the declared-module map of `permInput` (they are permutations of
its key list), the project tree is unchanged between the two runs, yet the
two runs produce different edge-pair sets — the parent edge for the
indirect module x.io/r is x.io/p → x.io/r in one run and x.io/q → x.io/r
in the other — so the edge sets differ as sets, not merely in ordering. -/
theorem C5_counterexample :
    permOrder1.Perm (availableModulesOf permInput.modfile) ∧
    permOrder2.Perm (availableModulesOf permInput.modfile) ∧
    ((⟨"x.io/p", "x.io/r"⟩ : Edge) ∈ (analyzeProject permInput permOrder1).1.edges) ∧
    ((⟨"x.io/p", "x.io/r"⟩ : Edge) ∉ (analyzeProject permInput permOrder2).1.edges) ∧
    ((⟨"x.io/q", "x.io/r"⟩ : Edge) ∈ (analyzeProject permInput permOrder2).1.edges) := by
  exact ⟨by decide, by decide, by decide, by decide, by decide⟩

/-- C5 (amended): the construction is a pure function of the project tree
and of the internal map-enumeration order, so a re-run with equal
enumeration order reproduces the graph exactly; across different
enumeration orders of the same declared-module map the node lists (hence
the node-id sets) and the error components still coincide — only the
choice of parent edges for indirect modules, and hence the edge set, may
differ. -/
theorem C5_idempotence (input : ProjectInput) (o1 o2 : List String) (h : o1.Perm o2) :
    (analyzeProject input o1).1.nodes = (analyzeProject input o2).1.nodes ∧
    (analyzeProject input o1).2 = (analyzeProject input o2).2 := by
  constructor
  · show ((scanState input).usedModules.foldl
        (repairModule input.modfile (mainModuleOf input.modfile) o1
          (scanState input).usedModules)
        ((scanState input).graph, (scanState input).nodeMap)).1.nodes =
      ((scanState input).usedModules.foldl
        (repairModule input.modfile (mainModuleOf input.modfile) o2
          (scanState input).usedModules)
        ((scanState input).graph, (scanState input).nodeMap)).1.nodes
    have hrel := foldl_rel
      (R := fun (a1 a2 : Graph × List String) => a1.1.nodes = a2.1.nodes ∧ a1.2 = a2.2)
      (scanState input).usedModules
      ((scanState input).graph, (scanState input).nodeMap)
      ((scanState input).graph, (scanState input).nodeMap)
      ⟨rfl, rfl⟩
      (fun b1 b2 x hR => repairModule_perm h input.modfile (mainModuleOf input.modfile)
        (scanState input).usedModules x hR.1 hR.2)
    exact hrel.1
  · rfl

/-- C5 witness: the two enumeration orders of `permInput` yield the same
node list. -/
theorem C5_idempotence_witness :
    (analyzeProject permInput permOrder1).1.nodes =
      (analyzeProject permInput permOrder2).1.nodes :=
  (C5_idempotence permInput permOrder1 permOrder2 (by decide)).1

theorem strStarts_append (pre rest : String) : strStarts (pre ++ rest) pre = true := by
  show pre.toList.isPrefixOf ((pre ++ rest).toList) = true
  rw [show (pre ++ rest).toList = pre.toList ++ rest.toList from rfl]
  exact List.isPrefixOf_iff_prefix.mpr (List.prefix_append _ _)

theorem strStarts_import_not_pkg (p : String) :
    strStarts ("import:" ++ p) "pkg:" = false := by
  show ("pkg:".toList).isPrefixOf (("import:" ++ p).toList) = false
  rw [show ("import:" ++ p).toList = "import:".toList ++ p.toList from rfl,
    show "pkg:".toList = ['p', 'k', 'g', ':'] from by decide,
    show "import:".toList = ['i', 'm', 'p', 'o', 'r', 't', ':'] from by decide]
  rfl

theorem mem_addEdge_elim {g : Graph} {a b : String} {e : Edge}
    (h : e ∈ (addEdge g a b).edges) : e ∈ g.edges ∨ e = ⟨a, b⟩ := by
  unfold addEdge at h
  split at h
  · exact Or.inl h
  · rcases List.mem_append.mp h with h1 | h2
    · exact Or.inl h1
    · exact Or.inr (List.mem_singleton.mp h2)

theorem addNode_sync {g : Graph} {nm : List String} (i l t : String) (d : Nat)
    (h : nm = g.nodes.map Node.id) :
    (addNode g nm i l t d).2 = (addNode g nm i l t d).1.nodes.map Node.id := by
  unfold addNode
  split
  · exact h
  · simp [h]

theorem mem_addNode_elim {g : Graph} {nm : List String} {n : Node} (i l t : String) (d : Nat)
    (h : n ∈ (addNode g nm i l t d).1.nodes) :
    n ∈ g.nodes ∨ n = { id := i, label := l, type := t, depth := d } := by
  rw [addNode_nodes] at h
  split at h
  · exact Or.inl h
  · rcases List.mem_append.mp h with h1 | h2
    · exact Or.inl h1
    · exact Or.inr (List.mem_singleton.mp h2)

theorem NoModInv_processImport (pkg : String) (st : AnalyzeState) (p : String)
    (mm : String) (av : List String) (hmm : mm = "")
    (hpkg : strStarts pkg "pkg:" = true) (h : NoModInv st) :
    NoModInv (processImport mm av pkg st p) := by
  obtain ⟨hsync, hused, hnodes, hedges⟩ := h
  have hmmtrue : strStarts p mm = true := by
    rw [hmm]
    exact strStarts_empty p
  rcases processImport_eq mm av pkg st p with ⟨_, heq⟩ | ⟨_, _, heq⟩ | ⟨_, hs, _, heq⟩ |
    ⟨_, hs, _, _⟩
  · rw [heq]
    exact ⟨hsync, hused, hnodes, hedges⟩
  · rw [heq]
    refine ⟨?_, hused, ?_, ?_⟩
    · show (addNode st.graph st.nodeMap ("import:" ++ p) (baseOf p) "internal" 0).2 =
        (addEdge (addNode st.graph st.nodeMap ("import:" ++ p) (baseOf p) "internal" 0).1
          pkg ("import:" ++ p)).nodes.map Node.id
      rw [addEdge_nodes]
      exact addNode_sync _ _ _ _ hsync
    · intro n hn
      replace hn : n ∈ (addEdge (addNode st.graph st.nodeMap ("import:" ++ p) (baseOf p)
          "internal" 0).1 pkg ("import:" ++ p)).nodes := hn
      rw [addEdge_nodes] at hn
      rcases mem_addNode_elim _ _ _ _ hn with hold | hnew
      · exact hnodes n hold
      · refine Or.inr ?_
        rw [hnew]
        exact ⟨strStarts_append "import:" p, rfl⟩
    · intro e he
      replace he : e ∈ (addEdge (addNode st.graph st.nodeMap ("import:" ++ p) (baseOf p)
          "internal" 0).1 pkg ("import:" ++ p)).edges := he
      rcases mem_addEdge_elim he with hold | hnew
      · rw [addNode_edges] at hold
        exact hedges e hold
      · rw [hnew]
        exact hpkg
  · rw [heq]
    exact ⟨hsync, hused, hnodes, hedges⟩
  · rw [hmmtrue] at hs
    cases hs

theorem NoModInv_processFile (pp : String) (st : AnalyzeState) (f : SrcFile)
    (mm : String) (av : List String) (hmm : mm = "") (h : NoModInv st) :
    NoModInv (processFile pp mm av st f) := by
  obtain ⟨hsync, hused, hnodes, hedges⟩ := h
  rcases processFile_eq pp mm av st f with ⟨_, heq⟩ | ⟨_, heq⟩ | ⟨imports, _, _, _, heq⟩
  · rw [heq]
    exact ⟨hsync, hused, hnodes, hedges⟩
  · rw [heq]
    exact ⟨hsync, hused, hnodes, hedges⟩
  · rw [heq]
    refine foldl_inv (P := NoModInv) ?_
      (fun st2 x h2 => NoModInv_processImport _ st2 x mm av hmm
        (strStarts_append "pkg:" (relPathOf pp f.path)) h2)
    refine ⟨?_, hused, ?_, ?_⟩
    · show (addNode st.graph st.nodeMap (packageIdOf pp f.path)
        (displayNameOf pp f.path) "package" 0).2 =
        (addNode st.graph st.nodeMap (packageIdOf pp f.path)
        (displayNameOf pp f.path) "package" 0).1.nodes.map Node.id
      exact addNode_sync _ _ _ _ hsync
    · intro n hn
      replace hn : n ∈ (addNode st.graph st.nodeMap (packageIdOf pp f.path)
          (displayNameOf pp f.path) "package" 0).1.nodes := hn
      rcases mem_addNode_elim _ _ _ _ hn with hold | hnew
      · exact hnodes n hold
      · refine Or.inl ?_
        rw [hnew]
        exact ⟨strStarts_append "pkg:" (relPathOf pp f.path), rfl⟩
    · intro e he
      replace he : e ∈ (addNode st.graph st.nodeMap (packageIdOf pp f.path)
          (displayNameOf pp f.path) "package" 0).1.edges := he
      rw [addNode_edges] at he
      exact hedges e he

theorem NoModInv_scanState (input : ProjectInput) (hmf : input.modfile = none) :
    NoModInv (scanState input) := by
  unfold scanState
  refine foldl_inv (P := NoModInv) ?_
    (fun st2 f h2 => NoModInv_processFile input.projectPath st2 f _ _
      (by rw [hmf]; rfl) h2)
  rw [hmf]
  exact ⟨rfl, rfl, fun n hn => absurd hn (List.not_mem_nil n),
    fun e he => absurd he (List.not_mem_nil e)⟩

/-- C10: when no manifest is present or it fails to parse (empty main
module), every import path containing a dot anywhere is classified as
internal — the final graph holds an internal-kind node keyed
"import:" + path and an edge from its package node — and the run produces
no external-kind node and no module edge: every node is a package or
internal node and every edge originates at a package node. -/
theorem C10_no_manifest_all_internal (input : ProjectInput) (directIter : List String)
    (hmf : input.modfile = none) :
    (∀ n ∈ (analyzeProject input directIter).1.nodes,
      n.type = "package" ∨ n.type = "internal") ∧
    (∀ n ∈ (analyzeProject input directIter).1.nodes, n.type ≠ "external") ∧
    (∀ e ∈ (analyzeProject input directIter).1.edges, strStarts e.source "pkg:" = true) ∧
    (∀ f ∈ input.files, ∀ imports, f.parsed = some imports →
      strEnds f.path ".go" = true → strHas f.path "vendor/" = false →
      ∀ p ∈ imports, strHas p "." = true →
        (∃ n ∈ (analyzeProject input directIter).1.nodes,
          n.id = "import:" ++ p ∧ n.type = "internal") ∧
        (⟨packageIdOf input.projectPath f.path, "import:" ++ p⟩ : Edge) ∈
          (analyzeProject input directIter).1.edges) := by
  have hinv := NoModInv_scanState input hmf
  have hused : (scanState input).usedModules = [] := hinv.2.1
  have hred : (analyzeProject input directIter).1 = (scanState input).graph := by
    show ((scanState input).usedModules.foldl
      (repairModule input.modfile (mainModuleOf input.modfile) directIter
        (scanState input).usedModules)
      ((scanState input).graph, (scanState input).nodeMap)).1 = (scanState input).graph
    rw [hused]
    rfl
  rw [hred]
  refine ⟨fun n hn => (hinv.2.2.1 n hn).imp And.right And.right, ?_, hinv.2.2.2, ?_⟩
  · intro n hn hext
    rcases hinv.2.2.1 n hn with ⟨_, ht⟩ | ⟨_, ht⟩ <;> rw [ht] at hext <;> exact absurd hext
      (by decide)
  · intro f hf imports hfp hgo hvendor p hp hdot
    obtain ⟨l1, l2, hfsplit⟩ := List.append_of_mem hf
    have hscan_eq : scanState input =
        l2.foldl (processFile input.projectPath (mainModuleOf input.modfile)
          (availableModulesOf input.modfile))
          (processFile input.projectPath (mainModuleOf input.modfile)
            (availableModulesOf input.modfile)
            (l1.foldl (processFile input.projectPath (mainModuleOf input.modfile)
              (availableModulesOf input.modfile)) (initState input.modfile)) f) := by
      unfold scanState
      rw [hfsplit, List.foldl_append, List.foldl_cons]
    have hmm0 : strStarts p (mainModuleOf input.modfile) = true := by
      have h1 : mainModuleOf input.modfile = "" := by
        rw [hmf]
        rfl
      rw [h1]
      exact strStarts_empty p
    rcases processFile_eq input.projectPath (mainModuleOf input.modfile)
        (availableModulesOf input.modfile)
        (l1.foldl (processFile input.projectPath (mainModuleOf input.modfile)
          (availableModulesOf input.modfile)) (initState input.modfile)) f with
      ⟨hc, _⟩ | ⟨hc, _⟩ | ⟨imports2, hp2, _, _, heqf⟩
    · rcases hc with hc1 | hc2
      · rw [hgo] at hc1
        cases hc1
      · rw [hvendor] at hc2
        cases hc2
    · rw [hfp] at hc
      cases hc
    · rw [hfp] at hp2
      have himp : imports = imports2 := Option.some.inj hp2
      subst himp
      obtain ⟨i1, i2, hisplit⟩ := List.append_of_mem hp
      rcases processImport_eq (mainModuleOf input.modfile)
          (availableModulesOf input.modfile) (packageIdOf input.projectPath f.path)
          (i1.foldl (processImport (mainModuleOf input.modfile)
            (availableModulesOf input.modfile) (packageIdOf input.projectPath f.path))
            { l1.foldl (processFile input.projectPath (mainModuleOf input.modfile)
                (availableModulesOf input.modfile)) (initState input.modfile) with
              graph := (addNode (l1.foldl (processFile input.projectPath
                  (mainModuleOf input.modfile) (availableModulesOf input.modfile))
                  (initState input.modfile)).graph
                (l1.foldl (processFile input.projectPath (mainModuleOf input.modfile)
                  (availableModulesOf input.modfile)) (initState input.modfile)).nodeMap
                (packageIdOf input.projectPath f.path)
                (displayNameOf input.projectPath f.path) "package" 0).1,
              nodeMap := (addNode (l1.foldl (processFile input.projectPath
                  (mainModuleOf input.modfile) (availableModulesOf input.modfile))
                  (initState input.modfile)).graph
                (l1.foldl (processFile input.projectPath (mainModuleOf input.modfile)
                  (availableModulesOf input.modfile)) (initState input.modfile)).nodeMap
                (packageIdOf input.projectPath f.path)
                (displayNameOf input.projectPath f.path) "package" 0).2 }) p with
        ⟨hcdot, _⟩ | ⟨_, _, heqp⟩ | ⟨_, hs, _, _⟩ | ⟨_, hs, _, _⟩
      · rw [hdot] at hcdot
        cases hcdot
      · -- membership right after processing p
        have hidmem : ("import:" ++ p) ∈ (processImport (mainModuleOf input.modfile)
            (availableModulesOf input.modfile) (packageIdOf input.projectPath f.path)
            (i1.foldl (processImport (mainModuleOf input.modfile)
              (availableModulesOf input.modfile) (packageIdOf input.projectPath f.path))
              { l1.foldl (processFile input.projectPath (mainModuleOf input.modfile)
                  (availableModulesOf input.modfile)) (initState input.modfile) with
                graph := (addNode (l1.foldl (processFile input.projectPath
                    (mainModuleOf input.modfile) (availableModulesOf input.modfile))
                    (initState input.modfile)).graph
                  (l1.foldl (processFile input.projectPath (mainModuleOf input.modfile)
                    (availableModulesOf input.modfile)) (initState input.modfile)).nodeMap
                  (packageIdOf input.projectPath f.path)
                  (displayNameOf input.projectPath f.path) "package" 0).1,
                nodeMap := (addNode (l1.foldl (processFile input.projectPath
                    (mainModuleOf input.modfile) (availableModulesOf input.modfile))
                    (initState input.modfile)).graph
                  (l1.foldl (processFile input.projectPath (mainModuleOf input.modfile)
                    (availableModulesOf input.modfile)) (initState input.modfile)).nodeMap
                  (packageIdOf input.projectPath f.path)
                  (displayNameOf input.projectPath f.path) "package" 0).2 }) p).nodeMap := by
          rw [heqp]
          exact mem_addNode_snd _ _ _ _ _ _
        have hedge : (⟨packageIdOf input.projectPath f.path, "import:" ++ p⟩ : Edge) ∈
            (processImport (mainModuleOf input.modfile)
            (availableModulesOf input.modfile) (packageIdOf input.projectPath f.path)
            (i1.foldl (processImport (mainModuleOf input.modfile)
              (availableModulesOf input.modfile) (packageIdOf input.projectPath f.path))
              { l1.foldl (processFile input.projectPath (mainModuleOf input.modfile)
                  (availableModulesOf input.modfile)) (initState input.modfile) with
                graph := (addNode (l1.foldl (processFile input.projectPath
                    (mainModuleOf input.modfile) (availableModulesOf input.modfile))
                    (initState input.modfile)).graph
                  (l1.foldl (processFile input.projectPath (mainModuleOf input.modfile)
                    (availableModulesOf input.modfile)) (initState input.modfile)).nodeMap
                  (packageIdOf input.projectPath f.path)
                  (displayNameOf input.projectPath f.path) "package" 0).1,
                nodeMap := (addNode (l1.foldl (processFile input.projectPath
                    (mainModuleOf input.modfile) (availableModulesOf input.modfile))
                    (initState input.modfile)).graph
                  (l1.foldl (processFile input.projectPath (mainModuleOf input.modfile)
                    (availableModulesOf input.modfile)) (initState input.modfile)).nodeMap
                  (packageIdOf input.projectPath f.path)
                  (displayNameOf input.projectPath f.path) "package" 0).2 }) p).graph.edges := by
          rw [heqp]
          exact self_mem_addEdge _ _ _
        -- propagate to the end of this file's import fold
        rw [hisplit, List.foldl_append, List.foldl_cons] at heqf
        have hidfile : ("import:" ++ p) ∈ (processFile input.projectPath
            (mainModuleOf input.modfile) (availableModulesOf input.modfile)
            (l1.foldl (processFile input.projectPath (mainModuleOf input.modfile)
              (availableModulesOf input.modfile)) (initState input.modfile)) f).nodeMap := by
          rw [heqf]
          refine foldl_inv (P := fun (st2 : AnalyzeState) => ("import:" ++ p) ∈ st2.nodeMap)
            hidmem (fun st2 x h2 => processImport_nodeMap_mono _ _ _ x h2)
        have hedgefile : (⟨packageIdOf input.projectPath f.path, "import:" ++ p⟩ : Edge) ∈
            (processFile input.projectPath
            (mainModuleOf input.modfile) (availableModulesOf input.modfile)
            (l1.foldl (processFile input.projectPath (mainModuleOf input.modfile)
              (availableModulesOf input.modfile)) (initState input.modfile)) f).graph.edges := by
          rw [heqf]
          refine foldl_inv (P := fun (st2 : AnalyzeState) =>
            (⟨packageIdOf input.projectPath f.path, "import:" ++ p⟩ : Edge) ∈ st2.graph.edges)
            hedge (fun st2 x h2 => processImport_edges_mono _ _ _ x h2)
        -- propagate through the remaining files
        have hidscan : ("import:" ++ p) ∈ (scanState input).nodeMap := by
          rw [hscan_eq]
          refine foldl_inv (P := fun (st2 : AnalyzeState) => ("import:" ++ p) ∈ st2.nodeMap)
            hidfile (fun st2 x h2 => processFile_nodeMap_mono _ _ _ x h2)
        have hedgescan : (⟨packageIdOf input.projectPath f.path, "import:" ++ p⟩ : Edge) ∈
            (scanState input).graph.edges := by
          rw [hscan_eq]
          refine foldl_inv (P := fun (st2 : AnalyzeState) =>
            (⟨packageIdOf input.projectPath f.path, "import:" ++ p⟩ : Edge) ∈ st2.graph.edges)
            hedgefile (fun st2 x h2 => processFile_edges_mono _ _ _ x h2)
        refine ⟨?_, hedgescan⟩
        rw [hinv.1] at hidscan
        obtain ⟨n, hn, hid⟩ := List.mem_map.mp hidscan
        rcases hinv.2.2.1 n hn with ⟨hpfx, _⟩ | ⟨_, hint⟩
        · rw [hid, strStarts_import_not_pkg] at hpfx
          cases hpfx
        · exact ⟨n, hn, hid, hint⟩
      · rw [hmm0] at hs
        cases hs
      · rw [hmm0] at hs
        cases hs

/-- C10 witness: the manifest-less run on `noModInput` classifies
"foo/bar.v1" as internal and creates its edge from pkg:root. -/
theorem C10_no_manifest_all_internal_witness :
    (∃ n ∈ (analyzeProject noModInput []).1.nodes,
      n.id = "import:" ++ "foo/bar.v1" ∧ n.type = "internal") ∧
    (⟨packageIdOf noModInput.projectPath "main.go", "import:" ++ "foo/bar.v1"⟩ : Edge) ∈
      (analyzeProject noModInput []).1.edges :=
  (C10_no_manifest_all_internal noModInput [] rfl).2.2.2
    { path := "main.go", parsed := some ["foo/bar.v1", "fmt"] } (by decide)
    ["foo/bar.v1", "fmt"] rfl (by decide) (by decide) "foo/bar.v1" (by decide) (by decide)

end GoRaph
